import Mathlib

/-!
Shallow embedding of `token_tracker_handler.py` (crewAI-telemetry):
a thread-safe in-memory aggregator of per-call LLM token usage.

Python dicts are modelled as insertion-ordered association lists with
unique keys; Python unbounded ints as `Int`; `datetime.now()` as an
externally supplied `Nat` tick.  The tracker object itself is modelled
with an explicit store (list of `WorkflowTokenMetrics` values) plus the
index of the current `_metrics` object, so that the aliasing behaviour of
`get_metrics` (which returns the live object, not a copy) is captured:
`get_metrics` returns the index, and dereferencing after further
mutations shows what the caller's snapshot sees.
-/

/-- Mirrors the Python dataclass `LLMCallMetrics`: one completed LLM call. -/
structure LLMCallMetrics where
  timestamp : Nat
  agent_name : String
  task_name : String
  model : String
  prompt_tokens : Int
  completion_tokens : Int
  total_tokens : Int
  call_type : String
deriving DecidableEq

/-- Mirrors the Python dataclass `AgentTokenMetrics`: running totals for one agent. -/
structure AgentTokenMetrics where
  agent_name : String
  total_tokens : Int := 0
  prompt_tokens : Int := 0
  completion_tokens : Int := 0
  call_count : Nat := 0
  calls : List LLMCallMetrics := []
deriving DecidableEq

/-- Mirrors the Python dataclass `TaskTokenMetrics`: running totals for one task key. -/
structure TaskTokenMetrics where
  task_name : String
  agent_name : String
  total_tokens : Int := 0
  prompt_tokens : Int := 0
  completion_tokens : Int := 0
  call_count : Nat := 0
  calls : List LLMCallMetrics := []
deriving DecidableEq

/-- Mirrors the Python dataclass `WorkflowTokenMetrics`: the root aggregate. -/
structure WorkflowTokenMetrics where
  total_tokens : Int := 0
  prompt_tokens : Int := 0
  completion_tokens : Int := 0
  per_agent : List (String × AgentTokenMetrics) := []
  per_task : List (String × TaskTokenMetrics) := []
  all_calls : List LLMCallMetrics := []
deriving DecidableEq

/-- Lookup in an insertion-ordered dict modelled as an association list
(first matching key wins; keys stay unique under `dictUpdate`). -/
def dictLookup {α : Type} (k : String) : List (String × α) → Option α
  | [] => none
  | (k2, v) :: rest => if k2 = k then some v else dictLookup k rest

/-- The Python idiom `if k not in d: d[k] = dflt` followed by an in-place
mutation `f` of `d[k]`: modify the entry if the key is present, otherwise
append the key bound to `f dflt`. -/
def dictUpdate {α : Type} (k : String) (dflt : α) (f : α → α) :
    List (String × α) → List (String × α)
  | [] => [(k, f dflt)]
  | (k2, v) :: rest =>
    if k2 = k then (k2, f v) :: rest else (k2, v) :: dictUpdate k dflt f rest

/-- The call record constructed at the top of `record_llm_call`:
`total_tokens` is the arithmetic sum of the two inputs. -/
def mkCall (now : Nat) (agent_name task_name model : String)
    (prompt_tokens completion_tokens : Int) (call_type : String) : LLMCallMetrics :=
  { timestamp := now
    agent_name := agent_name
    task_name := task_name
    model := model
    prompt_tokens := prompt_tokens
    completion_tokens := completion_tokens
    total_tokens := prompt_tokens + completion_tokens
    call_type := call_type }

/-- The composite per-task key built by `record_llm_call`:
the Python f-string `f"{task_name}_{agent_name}"`. -/
def taskKey (task_name agent_name : String) : String :=
  task_name ++ "_" ++ agent_name

/-- The composite key of a stored call record. -/
def keyOf (c : LLMCallMetrics) : String :=
  taskKey c.task_name c.agent_name

/-- The per-agent block of `record_llm_call`: add the deltas to the
aggregate's totals, bump its call count, append the record. -/
def agentUpd (total prompt_tokens completion_tokens : Int)
    (call_record : LLMCallMetrics) (a : AgentTokenMetrics) : AgentTokenMetrics :=
  { a with
    total_tokens := a.total_tokens + total
    prompt_tokens := a.prompt_tokens + prompt_tokens
    completion_tokens := a.completion_tokens + completion_tokens
    call_count := a.call_count + 1
    calls := a.calls ++ [call_record] }

/-- The per-task block of `record_llm_call`: add the deltas to the
aggregate's totals, bump its call count, append the record. -/
def taskUpd (total prompt_tokens completion_tokens : Int)
    (call_record : LLMCallMetrics) (t : TaskTokenMetrics) : TaskTokenMetrics :=
  { t with
    total_tokens := t.total_tokens + total
    prompt_tokens := t.prompt_tokens + prompt_tokens
    completion_tokens := t.completion_tokens + completion_tokens
    call_count := t.call_count + 1
    calls := t.calls ++ [call_record] }

/-- The body of `CrewTokenTracker.record_llm_call` as a pure transition on
the `WorkflowTokenMetrics` value it mutates: compute `total`, build the
record, bump the workflow totals, and update the per-agent and per-task
aggregates (lazily creating absent entries). -/
def record_llm_call (m : WorkflowTokenMetrics) (now : Nat)
    (agent_name task_name model : String)
    (prompt_tokens completion_tokens : Int) (call_type : String) :
    WorkflowTokenMetrics :=
  let total := prompt_tokens + completion_tokens
  let call_record := mkCall now agent_name task_name model
    prompt_tokens completion_tokens call_type
  { total_tokens := m.total_tokens + total
    prompt_tokens := m.prompt_tokens + prompt_tokens
    completion_tokens := m.completion_tokens + completion_tokens
    all_calls := m.all_calls ++ [call_record]
    per_agent := dictUpdate agent_name { agent_name := agent_name }
      (agentUpd total prompt_tokens completion_tokens call_record)
      m.per_agent
    per_task := dictUpdate (taskKey task_name agent_name)
      { task_name := task_name, agent_name := agent_name }
      (taskUpd total prompt_tokens completion_tokens call_record)
      m.per_task }

/-- The tracker object: a store of every `WorkflowTokenMetrics` object ever
allocated (so that references handed out by `get_metrics` stay meaningful
after `reset` rebinds `_metrics`), plus the index of the current one. -/
structure CrewTokenTracker where
  store : List WorkflowTokenMetrics
  cur : Nat
deriving DecidableEq

/-- `CrewTokenTracker.__init__`: a fresh empty aggregate is allocated. -/
def CrewTokenTracker.init : CrewTokenTracker :=
  { store := [{}], cur := 0 }

/-- `CrewTokenTracker.get_metrics` returns `self._metrics` itself, i.e. a
reference to (not a copy of) the current aggregate: modelled as the index
of the current object in the store. -/
def get_metrics (s : CrewTokenTracker) : Nat := s.cur

/-- Dereference a `WorkflowTokenMetrics` reference in the store. -/
def derefMetrics (s : CrewTokenTracker) (r : Nat) : WorkflowTokenMetrics :=
  s.store.getD r {}

/-- The value currently bound to `self._metrics`. -/
def liveMetrics (s : CrewTokenTracker) : WorkflowTokenMetrics :=
  derefMetrics s (get_metrics s)

/-- A mutating tracker operation: one `record_llm_call` invocation (with
the wall-clock tick it observed) or one `reset`. -/
inductive Op where
  | record (now : Nat) (agent_name task_name model : String)
      (prompt_tokens completion_tokens : Int) (call_type : String)
  | reset
deriving DecidableEq

/-- One tracker operation. `record` mutates the current aggregate in
place; `reset` allocates a fresh empty aggregate and rebinds `_metrics`
to it, leaving previously allocated objects untouched. -/
def step (s : CrewTokenTracker) : Op → CrewTokenTracker
  | .record now a t mo pt ct ty =>
    { s with
      store := s.store.set s.cur
        (record_llm_call (liveMetrics s) now a t mo pt ct ty) }
  | .reset =>
    { store := s.store ++ [{}], cur := s.store.length }

/-- Run a sequence of tracker operations. -/
def run (s : CrewTokenTracker) (ops : List Op) : CrewTokenTracker :=
  ops.foldl step s

/-- The list of call records produced by the operations since the last
`reset`, given the records `acc` already present before them. -/
def callsSince (acc : List LLMCallMetrics) : List Op → List LLMCallMetrics
  | [] => acc
  | .record now a t mo pt ct ty :: rest =>
    callsSince (acc ++ [mkCall now a t mo pt ct ty]) rest
  | .reset :: rest => callsSince [] rest

/-- The call records produced by the `record` operations of a sequence
(in order), ignoring resets. -/
def recordsOf : List Op → List LLMCallMetrics
  | [] => []
  | .record now a t mo pt ct ty :: rest =>
    mkCall now a t mo pt ct ty :: recordsOf rest
  | .reset :: rest => recordsOf rest

/-- Sum of an integer field over a list of call records. -/
def sumBy (g : LLMCallMetrics → Int) (l : List LLMCallMetrics) : Int :=
  (l.map g).sum

/-- Sum of an integer field over the values of an association-list dict. -/
def dictSum {α : Type} (g : α → Int) (d : List (String × α)) : Int :=
  (d.map (fun p => g p.2)).sum

/-! ### Dictionary lemmas -/

theorem dictLookup_update_self {α : Type} (k : String) (dflt : α) (f : α → α)
    (d : List (String × α)) :
    dictLookup k (dictUpdate k dflt f d) = some (f ((dictLookup k d).getD dflt)) := by
  induction d with
  | nil => simp [dictUpdate, dictLookup]
  | cons p rest ih =>
    obtain ⟨k2, v⟩ := p
    by_cases h : k2 = k
    · simp [dictUpdate, dictLookup, h]
    · simp [dictUpdate, dictLookup, h, ih]

theorem dictLookup_update_ne {α : Type} {k k2 : String} (h : k2 ≠ k)
    (dflt : α) (f : α → α) (d : List (String × α)) :
    dictLookup k2 (dictUpdate k dflt f d) = dictLookup k2 d := by
  induction d with
  | nil => simp [dictUpdate, dictLookup, Ne.symm h]
  | cons p rest ih =>
    obtain ⟨k3, v⟩ := p
    by_cases h3 : k3 = k
    · subst h3
      simp [dictUpdate, dictLookup, Ne.symm h]
    · by_cases h4 : k3 = k2
      · subst h4
        simp [dictUpdate, dictLookup, h]
      · simp [dictUpdate, dictLookup, h3, h4, ih]

theorem dictLookup_update_isSome {α : Type} (k k2 : String) (dflt : α) (f : α → α)
    (d : List (String × α)) (h : (dictLookup k2 d).isSome) :
    (dictLookup k2 (dictUpdate k dflt f d)).isSome := by
  by_cases hk : k2 = k
  · subst hk
    rw [dictLookup_update_self]
    rfl
  · rwa [dictLookup_update_ne hk]

theorem dictSum_update {α : Type} (g : α → Int) (k : String) (dflt : α) (f : α → α)
    (δ : Int) (hf : ∀ v, g (f v) = g v + δ) (h0 : g dflt = 0)
    (d : List (String × α)) :
    dictSum g (dictUpdate k dflt f d) = dictSum g d + δ := by
  induction d with
  | nil => simp [dictUpdate, dictSum, hf, h0]
  | cons p rest ih =>
    obtain ⟨k2, v⟩ := p
    by_cases h : k2 = k
    · simp only [dictUpdate, if_pos h, dictSum, List.map_cons, List.sum_cons, hf]
      simp only [dictSum] at *
      ring
    · simp only [dictUpdate, if_neg h, dictSum, List.map_cons, List.sum_cons]
      simp only [dictSum] at ih
      rw [ih]
      ring

theorem dictUpdate_forall {α : Type} (Q : α → Prop) (k : String) (dflt : α)
    (f : α → α) (d : List (String × α))
    (hd : ∀ p ∈ d, Q p.2) (hf : ∀ v, Q v → Q (f v)) (h0 : Q dflt) :
    ∀ p ∈ dictUpdate k dflt f d, Q p.2 := by
  induction d with
  | nil =>
    intro p hp
    simp [dictUpdate] at hp
    subst hp
    exact hf dflt h0
  | cons q rest ih =>
    obtain ⟨k2, v⟩ := q
    by_cases h : k2 = k
    · intro p hp
      simp only [dictUpdate, if_pos h] at hp
      rcases List.mem_cons.mp hp with h2 | h2
      · subst h2
        exact hf v (hd (k2, v) (List.mem_cons_self _ _))
      · exact hd p (List.mem_cons_of_mem _ h2)
    · intro p hp
      simp only [dictUpdate, if_neg h] at hp
      rcases List.mem_cons.mp hp with h2 | h2
      · subst h2
        exact hd (k2, v) (List.mem_cons_self _ _)
      · exact ih (fun q hq => hd q (List.mem_cons_of_mem _ hq)) p h2

/-! ### Store access lemmas -/

theorem getD_set_self {α : Type} (l : List α) (i : Nat) (v d : α)
    (h : i < l.length) : (l.set i v).getD i d = v := by
  induction l generalizing i with
  | nil => simp at h
  | cons x xs ih =>
    cases i with
    | zero => rfl
    | succ j =>
      simp only [List.set, List.getD, List.getElem?_cons_succ] at *
      exact ih j (Nat.lt_of_succ_lt_succ h)

theorem getD_set_ne {α : Type} (l : List α) (i j : Nat) (v d : α)
    (h : j ≠ i) : (l.set i v).getD j d = l.getD j d := by
  induction l generalizing i j with
  | nil => simp [List.set]
  | cons x xs ih =>
    cases i with
    | zero =>
      cases j with
      | zero => exact absurd rfl h
      | succ j2 => rfl
    | succ i2 =>
      cases j with
      | zero => rfl
      | succ j2 =>
        simp only [List.set, List.getD, List.getElem?_cons_succ]
        exact ih i2 j2 (fun h2 => h (by rw [h2]))

theorem getD_append_left {α : Type} (l l2 : List α) (j : Nat) (d : α)
    (h : j < l.length) : (l ++ l2).getD j d = l.getD j d := by
  induction l generalizing j with
  | nil => simp at h
  | cons x xs ih =>
    cases j with
    | zero => rfl
    | succ j2 =>
      simp only [List.cons_append, List.getD, List.getElem?_cons_succ]
      exact ih j2 (Nat.lt_of_succ_lt_succ h)

theorem getD_concat_length {α : Type} (l : List α) (v d : α) :
    (l ++ [v]).getD l.length d = v := by
  induction l with
  | nil => rfl
  | cons x xs ih =>
    simp only [List.cons_append, List.length_cons, List.getD,
      List.getElem?_cons_succ]
    simp only [List.getD] at ih
    exact ih

/-! ### The metrics invariant -/

theorem sumBy_concat (g : LLMCallMetrics → Int) (l : List LLMCallMetrics)
    (c : LLMCallMetrics) : sumBy g (l ++ [c]) = sumBy g l + g c := by
  simp [sumBy]

/-- Everything that ties a `WorkflowTokenMetrics` value together: workflow
totals match the sums over `all_calls`; every retained record is
internally consistent; cross-view sums agree; every per-agent and
per-task entry aggregates exactly its filtered slice of `all_calls`. -/
structure MetricsInv (m : WorkflowTokenMetrics) : Prop where
  total_eq : m.total_tokens = sumBy (fun c => c.total_tokens) m.all_calls
  prompt_eq : m.prompt_tokens = sumBy (fun c => c.prompt_tokens) m.all_calls
  completion_eq :
    m.completion_tokens = sumBy (fun c => c.completion_tokens) m.all_calls
  consistent : ∀ c ∈ m.all_calls,
    c.total_tokens = c.prompt_tokens + c.completion_tokens
  agent_nested : ∀ p ∈ m.per_agent, ∀ c ∈ p.2.calls,
    c.total_tokens = c.prompt_tokens + c.completion_tokens
  task_nested : ∀ p ∈ m.per_task, ∀ c ∈ p.2.calls,
    c.total_tokens = c.prompt_tokens + c.completion_tokens
  agent_sum_total :
    dictSum (fun a => a.total_tokens) m.per_agent = m.total_tokens
  agent_sum_prompt :
    dictSum (fun a => a.prompt_tokens) m.per_agent = m.prompt_tokens
  agent_sum_completion :
    dictSum (fun a => a.completion_tokens) m.per_agent = m.completion_tokens
  task_sum_total :
    dictSum (fun t => t.total_tokens) m.per_task = m.total_tokens
  task_sum_prompt :
    dictSum (fun t => t.prompt_tokens) m.per_task = m.prompt_tokens
  task_sum_completion :
    dictSum (fun t => t.completion_tokens) m.per_task = m.completion_tokens
  agent_entry : ∀ k a, dictLookup k m.per_agent = some a →
    a.agent_name = k ∧
    a.calls = m.all_calls.filter (fun c => c.agent_name == k) ∧
    a.total_tokens = sumBy (fun c => c.total_tokens) a.calls ∧
    a.prompt_tokens = sumBy (fun c => c.prompt_tokens) a.calls ∧
    a.completion_tokens = sumBy (fun c => c.completion_tokens) a.calls ∧
    a.call_count = a.calls.length
  agent_present : ∀ c ∈ m.all_calls,
    (dictLookup c.agent_name m.per_agent).isSome
  task_entry : ∀ k t, dictLookup k m.per_task = some t →
    t.calls = m.all_calls.filter (fun c => keyOf c == k) ∧
    t.total_tokens = sumBy (fun c => c.total_tokens) t.calls ∧
    t.prompt_tokens = sumBy (fun c => c.prompt_tokens) t.calls ∧
    t.completion_tokens = sumBy (fun c => c.completion_tokens) t.calls ∧
    t.call_count = t.calls.length
  task_present : ∀ c ∈ m.all_calls,
    (dictLookup (keyOf c) m.per_task).isSome

theorem metricsInv_empty : MetricsInv {} := by
  constructor <;> simp [sumBy, dictSum, dictLookup]

theorem metricsInv_record (m : WorkflowTokenMetrics) (now : Nat)
    (a t mo : String) (pt ct : Int) (ty : String) (h : MetricsInv m) :
    MetricsInv (record_llm_call m now a t mo pt ct ty) := by
  set c := mkCall now a t mo pt ct ty with hc
  have hagent : c.agent_name = a := rfl
  have hkey : keyOf c = taskKey t a := rfl
  have htot : c.total_tokens = pt + ct := rfl
  have hpt : c.prompt_tokens = pt := rfl
  have hct : c.completion_tokens = ct := rfl
  constructor
  case total_eq =>
    simp only [record_llm_call, sumBy_concat, ← hc]
    rw [← h.total_eq, htot]
  case prompt_eq =>
    simp only [record_llm_call, sumBy_concat, ← hc]
    rw [← h.prompt_eq]
    rfl
  case completion_eq =>
    simp only [record_llm_call, sumBy_concat, ← hc]
    rw [← h.completion_eq]
    rfl
  case consistent =>
    intro c2 hc2
    simp only [record_llm_call, ← hc, List.mem_append, List.mem_singleton] at hc2
    rcases hc2 with h2 | h2
    · exact h.consistent c2 h2
    · subst h2
      rfl
  case agent_nested =>
    simp only [record_llm_call, ← hc]
    refine dictUpdate_forall
      (fun v : AgentTokenMetrics => ∀ c2 ∈ v.calls,
        c2.total_tokens = c2.prompt_tokens + c2.completion_tokens)
      _ _ _ _ h.agent_nested ?_ ?_
    · intro v hv c2 hc2
      simp only [agentUpd, List.mem_append, List.mem_singleton] at hc2
      rcases hc2 with h2 | h2
      · exact hv c2 h2
      · subst h2
        rfl
    · intro c2 hc2
      simp at hc2
  case task_nested =>
    simp only [record_llm_call, ← hc]
    refine dictUpdate_forall
      (fun v : TaskTokenMetrics => ∀ c2 ∈ v.calls,
        c2.total_tokens = c2.prompt_tokens + c2.completion_tokens)
      _ _ _ _ h.task_nested ?_ ?_
    · intro v hv c2 hc2
      simp only [taskUpd, List.mem_append, List.mem_singleton] at hc2
      rcases hc2 with h2 | h2
      · exact hv c2 h2
      · subst h2
        rfl
    · intro c2 hc2
      simp at hc2
  case agent_sum_total =>
    simp only [record_llm_call, ← hc]
    rw [dictSum_update (fun x => x.total_tokens) a { agent_name := a }
      (agentUpd (pt + ct) pt ct c) (pt + ct) (fun v => rfl) rfl,
      h.agent_sum_total]
  case agent_sum_prompt =>
    simp only [record_llm_call, ← hc]
    rw [dictSum_update (fun x => x.prompt_tokens) a { agent_name := a }
      (agentUpd (pt + ct) pt ct c) pt (fun v => rfl) rfl,
      h.agent_sum_prompt]
  case agent_sum_completion =>
    simp only [record_llm_call, ← hc]
    rw [dictSum_update (fun x => x.completion_tokens) a { agent_name := a }
      (agentUpd (pt + ct) pt ct c) ct (fun v => rfl) rfl,
      h.agent_sum_completion]
  case task_sum_total =>
    simp only [record_llm_call, ← hc]
    rw [dictSum_update (fun x => x.total_tokens) (taskKey t a)
      { task_name := t, agent_name := a }
      (taskUpd (pt + ct) pt ct c) (pt + ct) (fun v => rfl) rfl,
      h.task_sum_total]
  case task_sum_prompt =>
    simp only [record_llm_call, ← hc]
    rw [dictSum_update (fun x => x.prompt_tokens) (taskKey t a)
      { task_name := t, agent_name := a }
      (taskUpd (pt + ct) pt ct c) pt (fun v => rfl) rfl,
      h.task_sum_prompt]
  case task_sum_completion =>
    simp only [record_llm_call, ← hc]
    rw [dictSum_update (fun x => x.completion_tokens) (taskKey t a)
      { task_name := t, agent_name := a }
      (taskUpd (pt + ct) pt ct c) ct (fun v => rfl) rfl,
      h.task_sum_completion]
  case agent_entry =>
    intro k a2 hk
    simp only [record_llm_call, ← hc] at hk ⊢
    by_cases hka : k = a
    · subst hka
      rw [dictLookup_update_self] at hk
      cases hd : dictLookup k m.per_agent with
      | some a0 =>
        rw [hd] at hk
        obtain ⟨hn, hcalls, ht, hp, hcp, hcnt⟩ := h.agent_entry k a0 hd
        injection hk with hk2
        subst hk2
        refine ⟨hn, ?_, ?_, ?_, ?_, ?_⟩
        · simp only [agentUpd, List.filter_append, hcalls]
          simp [hagent, hcalls]
        · simp [agentUpd, sumBy_concat, ht, htot]
        · simp [agentUpd, sumBy_concat, hp, hpt]
        · simp [agentUpd, sumBy_concat, hcp, hct]
        · simp [agentUpd, hcnt]
      | none =>
        rw [hd] at hk
        injection hk with hk2
        subst hk2
        have hnil : m.all_calls.filter (fun c2 => c2.agent_name == k) = [] := by
          rw [List.filter_eq_nil_iff]
          intro c2 hc2 hbeq
          have hk2 : c2.agent_name = k := by simpa using hbeq
          have hs := h.agent_present c2 hc2
          rw [hk2, hd] at hs
          simp at hs
        refine ⟨rfl, ?_, ?_, ?_, ?_, ?_⟩
        · simp only [agentUpd, List.filter_append, hnil]
          simp [hagent]
        · simp [agentUpd, sumBy, htot]
        · simp [agentUpd, sumBy, hpt]
        · simp [agentUpd, sumBy, hct]
        · simp [agentUpd]
    · rw [dictLookup_update_ne hka] at hk
      obtain ⟨hn, hcalls, ht, hp, hcp, hcnt⟩ := h.agent_entry k a2 hk
      refine ⟨hn, ?_, ht, hp, hcp, hcnt⟩
      rw [hcalls, List.filter_append]
      have : (List.filter (fun c2 => c2.agent_name == k) [c]) = [] := by
        simp [hagent, Ne.symm hka]
      rw [this, List.append_nil]
  case agent_present =>
    intro c2 hc2
    simp only [record_llm_call, ← hc, List.mem_append, List.mem_singleton] at hc2 ⊢
    rcases hc2 with h2 | h2
    · exact dictLookup_update_isSome _ _ _ _ _ (h.agent_present c2 h2)
    · subst h2
      rw [hagent, dictLookup_update_self]
      rfl
  case task_entry =>
    intro k t2 hk
    simp only [record_llm_call, ← hc] at hk ⊢
    by_cases hka : k = taskKey t a
    · subst hka
      rw [dictLookup_update_self] at hk
      cases hd : dictLookup (taskKey t a) m.per_task with
      | some t0 =>
        rw [hd] at hk
        obtain ⟨hcalls, ht, hp, hcp, hcnt⟩ := h.task_entry _ t0 hd
        injection hk with hk2
        subst hk2
        refine ⟨?_, ?_, ?_, ?_, ?_⟩
        · simp only [taskUpd, List.filter_append, hcalls]
          simp [hkey, hcalls]
        · simp [taskUpd, sumBy_concat, ht, htot]
        · simp [taskUpd, sumBy_concat, hp, hpt]
        · simp [taskUpd, sumBy_concat, hcp, hct]
        · simp [taskUpd, hcnt]
      | none =>
        rw [hd] at hk
        injection hk with hk2
        subst hk2
        have hnil : m.all_calls.filter (fun c2 => keyOf c2 == taskKey t a) = [] := by
          rw [List.filter_eq_nil_iff]
          intro c2 hc2 hbeq
          have hkk : keyOf c2 = taskKey t a := by simpa using hbeq
          have hs := h.task_present c2 hc2
          rw [hkk, hd] at hs
          simp at hs
        refine ⟨?_, ?_, ?_, ?_, ?_⟩
        · simp only [taskUpd, List.filter_append, hnil]
          simp [hkey]
        · simp [taskUpd, sumBy, htot]
        · simp [taskUpd, sumBy, hpt]
        · simp [taskUpd, sumBy, hct]
        · simp [taskUpd]
    · rw [dictLookup_update_ne hka] at hk
      obtain ⟨hcalls, ht, hp, hcp, hcnt⟩ := h.task_entry k t2 hk
      refine ⟨?_, ht, hp, hcp, hcnt⟩
      rw [hcalls, List.filter_append]
      have : (List.filter (fun c2 => keyOf c2 == k) [c]) = [] := by
        simp [hkey, Ne.symm hka]
      rw [this, List.append_nil]
  case task_present =>
    intro c2 hc2
    simp only [record_llm_call, ← hc, List.mem_append, List.mem_singleton] at hc2 ⊢
    rcases hc2 with h2 | h2
    · exact dictLookup_update_isSome _ _ _ _ _ (h.task_present c2 h2)
    · subst h2
      rw [hkey, dictLookup_update_self]
      rfl

/-! ### Tracker-level lemmas -/

/-- The current `_metrics` reference always points into the store. -/
def TrackerWF (s : CrewTokenTracker) : Prop := s.cur < s.store.length

theorem trackerWF_init : TrackerWF CrewTokenTracker.init := by
  simp [TrackerWF, CrewTokenTracker.init]

theorem liveMetrics_init : liveMetrics CrewTokenTracker.init = {} := rfl

theorem trackerWF_step (s : CrewTokenTracker) (op : Op) (h : TrackerWF s) :
    TrackerWF (step s op) := by
  cases op with
  | record now a t mo pt ct ty => simpa [TrackerWF, step] using h
  | reset => simp [TrackerWF, step]

theorem trackerWF_run (s : CrewTokenTracker) (ops : List Op) (h : TrackerWF s) :
    TrackerWF (run s ops) := by
  induction ops generalizing s with
  | nil => exact h
  | cons op rest ih => exact ih _ (trackerWF_step s op h)

theorem liveMetrics_step_record (s : CrewTokenTracker) (h : TrackerWF s)
    (now : Nat) (a t mo : String) (pt ct : Int) (ty : String) :
    liveMetrics (step s (Op.record now a t mo pt ct ty)) =
      record_llm_call (liveMetrics s) now a t mo pt ct ty := by
  simp only [liveMetrics, derefMetrics, get_metrics, step]
  exact getD_set_self _ _ _ _ h

theorem liveMetrics_step_reset (s : CrewTokenTracker) :
    liveMetrics (step s Op.reset) = {} := by
  simp only [liveMetrics, derefMetrics, get_metrics, step]
  exact getD_concat_length _ _ _

theorem metricsInv_step (s : CrewTokenTracker) (op : Op)
    (hwf : TrackerWF s) (h : MetricsInv (liveMetrics s)) :
    MetricsInv (liveMetrics (step s op)) := by
  cases op with
  | record now a t mo pt ct ty =>
    rw [liveMetrics_step_record s hwf]
    exact metricsInv_record _ _ _ _ _ _ _ _ h
  | reset =>
    rw [liveMetrics_step_reset]
    exact metricsInv_empty

theorem metricsInv_init : MetricsInv (liveMetrics CrewTokenTracker.init) := by
  rw [liveMetrics_init]
  exact metricsInv_empty

theorem metricsInv_run (ops : List Op) :
    MetricsInv (liveMetrics (run CrewTokenTracker.init ops)) := by
  suffices h : ∀ s, TrackerWF s → MetricsInv (liveMetrics s) →
      MetricsInv (liveMetrics (run s ops)) from
    h _ trackerWF_init metricsInv_init
  induction ops with
  | nil =>
    intro s _ h2
    exact h2
  | cons op rest ih =>
    intro s hwf h2
    exact ih (step s op) (trackerWF_step s op hwf) (metricsInv_step s op hwf h2)

theorem all_calls_run (ops : List Op) :
    ∀ s, TrackerWF s →
      (liveMetrics (run s ops)).all_calls =
        callsSince (liveMetrics s).all_calls ops := by
  induction ops with
  | nil =>
    intro s _
    rfl
  | cons op rest ih =>
    intro s hwf
    cases op with
    | record now a t mo pt ct ty =>
      show (liveMetrics (run (step s (Op.record now a t mo pt ct ty)) rest)).all_calls =
        callsSince ((liveMetrics s).all_calls ++ [mkCall now a t mo pt ct ty]) rest
      rw [ih _ (trackerWF_step s _ hwf), liveMetrics_step_record s hwf]
      rfl
    | reset =>
      show (liveMetrics (run (step s Op.reset) rest)).all_calls =
        callsSince [] rest
      rw [ih _ (trackerWF_step s _ hwf), liveMetrics_step_reset]

theorem callsSince_no_reset (ops : List Op) (hres : Op.reset ∉ ops) :
    ∀ acc, callsSince acc ops = acc ++ recordsOf ops := by
  induction ops with
  | nil =>
    intro acc
    simp [callsSince, recordsOf]
  | cons op rest ih =>
    intro acc
    cases op with
    | record now a t mo pt ct ty =>
      have hres2 : Op.reset ∉ rest := fun h2 => hres (List.mem_cons_of_mem _ h2)
      show callsSince (acc ++ [mkCall now a t mo pt ct ty]) rest =
        acc ++ (mkCall now a t mo pt ct ty :: recordsOf rest)
      rw [ih hres2]
      simp
    | reset => exact absurd (List.mem_cons_self _ _) hres

/-- The records of a no-reset run are exactly the records of its
`record` operations, in order. -/
theorem all_calls_run_no_reset (ops : List Op) (hres : Op.reset ∉ ops) :
    (liveMetrics (run CrewTokenTracker.init ops)).all_calls = recordsOf ops := by
  rw [all_calls_run ops _ trackerWF_init, liveMetrics_init]
  rw [callsSince_no_reset ops hres]
  rfl

/-- Objects other than the current `_metrics` are never mutated by any
further operation. -/
theorem derefMetrics_run_frozen (ops : List Op) :
    ∀ s r, TrackerWF s → r < s.store.length → r ≠ s.cur →
      derefMetrics (run s ops) r = derefMetrics s r := by
  induction ops with
  | nil =>
    intro s r _ _ _
    rfl
  | cons op rest ih =>
    intro s r hwf hr hne
    cases op with
    | record now a t mo pt ct ty =>
      have h1 : derefMetrics (run (step s (Op.record now a t mo pt ct ty)) rest) r =
          derefMetrics (step s (Op.record now a t mo pt ct ty)) r := by
        refine ih _ r (trackerWF_step s _ hwf) ?_ hne
        simpa [step] using hr
      rw [show run s (Op.record now a t mo pt ct ty :: rest) =
        run (step s (Op.record now a t mo pt ct ty)) rest from rfl, h1]
      simp only [derefMetrics, step]
      exact getD_set_ne _ _ _ _ _ hne
    | reset =>
      have hr2 : r < (step s Op.reset).store.length := by
        simp only [step, List.length_append, List.length_cons, List.length_nil]
        omega
      have hne2 : r ≠ (step s Op.reset).cur := by
        simp only [step]
        omega
      have h1 : derefMetrics (run (step s Op.reset) rest) r =
          derefMetrics (step s Op.reset) r :=
        ih _ r (trackerWF_step s _ hwf) hr2 hne2
      rw [show run s (Op.reset :: rest) = run (step s Op.reset) rest from rfl, h1]
      simp only [derefMetrics, step]
      exact getD_append_left _ _ _ _ hr

/-! ### Concrete scenarios -/

/-- Two recordings whose distinct (task, agent) pairs — (task "a",
agent "b_c") and (task "a_b", agent "c") — concatenate to the same
composite key "a_b_c". -/
def collideOps : List Op :=
  [Op.record 0 "b_c" "a" "gpt" 1 0 "generation",
   Op.record 1 "c" "a_b" "gpt" 2 0 "generation"]

/-- The spec's per-task example: agent_A and agent_B both execute
task_1. -/
def exampleOps : List Op :=
  [Op.record 0 "agent_A" "task_1" "gpt" 10 5 "generation",
   Op.record 1 "agent_B" "task_1" "gpt" 3 2 "generation"]

/-- A single recording by agent_A on task_1. -/
def singleOps : List Op :=
  [Op.record 0 "agent_A" "task_1" "gpt" 10 5 "generation"]

/-- The per-agent aggregate produced by `singleOps`. -/
def singleAgent : AgentTokenMetrics :=
  { agent_name := "agent_A", total_tokens := 15, prompt_tokens := 10,
    completion_tokens := 5, call_count := 1,
    calls := [mkCall 0 "agent_A" "task_1" "gpt" 10 5 "generation"] }

/-- The per-task aggregate of key "task_1_agent_A" produced by
`exampleOps`. -/
def exampleTaskA : TaskTokenMetrics :=
  { task_name := "task_1", agent_name := "agent_A", total_tokens := 15,
    prompt_tokens := 10, completion_tokens := 5, call_count := 1,
    calls := [mkCall 0 "agent_A" "task_1" "gpt" 10 5 "generation"] }

/-! ### Helper lemmas for the claims -/

theorem sumBy_congr (g g2 : LLMCallMetrics → Int) (l : List LLMCallMetrics)
    (h : ∀ c ∈ l, g c = g2 c) : sumBy g l = sumBy g2 l := by
  induction l with
  | nil => rfl
  | cons x xs ih =>
    simp only [sumBy, List.map_cons, List.sum_cons] at *
    rw [h x (List.mem_cons_self _ _),
      ih (fun c hc => h c (List.mem_cons_of_mem _ hc))]

theorem all_calls_eq_callsSince (ops : List Op) :
    (liveMetrics (run CrewTokenTracker.init ops)).all_calls =
      callsSince [] ops := by
  have h := all_calls_run ops CrewTokenTracker.init trackerWF_init
  rw [liveMetrics_init] at h
  simpa using h

/-! ### Claims -/

/-- Claim C1. The code violates snapshot isolation: `get_metrics` hands out
the live `_metrics` object, so a later `record_llm_call` mutates the very
aggregate the caller already holds. On a fresh tracker the snapshot
reference initially dereferences to the empty aggregate, and after one
recording of 10 prompt and 5 completion tokens the same reference
dereferences to an aggregate with `total_tokens = 15`. -/
theorem get_metrics_snapshot_mutated :
    get_metrics CrewTokenTracker.init = 0 ∧
    (derefMetrics CrewTokenTracker.init (get_metrics CrewTokenTracker.init)).total_tokens = 0 ∧
    (derefMetrics (step CrewTokenTracker.init
        (Op.record 0 "agent_A" "task_1" "gpt" 10 5 "generation"))
      (get_metrics CrewTokenTracker.init)).total_tokens = 15 ∧
    derefMetrics (step CrewTokenTracker.init
        (Op.record 0 "agent_A" "task_1" "gpt" 10 5 "generation"))
      (get_metrics CrewTokenTracker.init) ≠
      derefMetrics CrewTokenTracker.init (get_metrics CrewTokenTracker.init) := by
  decide

/-- Claim C2, counterexample to the claim as stated: the per-task entry
reached by the pair (task "a", agent "b_c") under its composite key
"a_b_c" holds total 3, while the calls naming that exact pair sum to 1 —
the key also absorbed the distinct pair (task "a_b", agent "c"). -/
theorem per_task_exact_pair_fails :
    (dictLookup (taskKey "a" "b_c")
        (liveMetrics (run CrewTokenTracker.init collideOps)).per_task).map
      (fun t => t.total_tokens) = some 3 ∧
    sumBy (fun c => c.total_tokens)
      ((liveMetrics (run CrewTokenTracker.init collideOps)).all_calls.filter
        (fun c => c.task_name == "a" && c.agent_name == "b_c")) = 1 ∧
    (3 : Int) ≠ 1 := by
  decide

/-- Claim C2 (amended). For every key present in `per_task` after a
reset-free sequence of `record_llm_call` invocations, the entry's totals
and call count equal exactly the sums/count over the recorded calls whose
composite key `task_name ++ "_" ++ agent_name` equals that key (which
coincides with the calls naming the exact pair whenever no distinct pair
concatenates to the same key, as in the spec's example). -/
theorem per_task_key_aggregation (ops : List Op) (k : String)
    (t : TaskTokenMetrics) (hres : Op.reset ∉ ops)
    (hk : dictLookup k
      (liveMetrics (run CrewTokenTracker.init ops)).per_task = some t) :
    t.total_tokens = sumBy (fun c => c.total_tokens)
      ((recordsOf ops).filter (fun c => keyOf c == k)) ∧
    t.prompt_tokens = sumBy (fun c => c.prompt_tokens)
      ((recordsOf ops).filter (fun c => keyOf c == k)) ∧
    t.completion_tokens = sumBy (fun c => c.completion_tokens)
      ((recordsOf ops).filter (fun c => keyOf c == k)) ∧
    t.call_count = ((recordsOf ops).filter (fun c => keyOf c == k)).length := by
  have h := metricsInv_run ops
  obtain ⟨hcalls, ht, hp, hcp, hcnt⟩ := h.task_entry k t hk
  rw [all_calls_run_no_reset ops hres] at hcalls
  rw [hcalls] at ht hp hcp hcnt
  exact ⟨ht, hp, hcp, hcnt⟩

/-- Claim C2, witness: in the spec's example the "task_1_agent_A" entry
aggregates exactly the agent_A call (15 = 10 + 5 tokens), the
"task_1_agent_B" entry holds 5, and the workflow total is 20. -/
theorem per_task_key_aggregation_witness :
    (exampleTaskA.total_tokens = sumBy (fun c => c.total_tokens)
      ((recordsOf exampleOps).filter (fun c => keyOf c == "task_1_agent_A")) ∧
    exampleTaskA.prompt_tokens = sumBy (fun c => c.prompt_tokens)
      ((recordsOf exampleOps).filter (fun c => keyOf c == "task_1_agent_A")) ∧
    exampleTaskA.completion_tokens = sumBy (fun c => c.completion_tokens)
      ((recordsOf exampleOps).filter (fun c => keyOf c == "task_1_agent_A")) ∧
    exampleTaskA.call_count =
      ((recordsOf exampleOps).filter (fun c => keyOf c == "task_1_agent_A")).length) ∧
    exampleTaskA.total_tokens = 15 ∧
    (dictLookup "task_1_agent_B"
        (liveMetrics (run CrewTokenTracker.init exampleOps)).per_task).map
      (fun t => t.total_tokens) = some 5 ∧
    (liveMetrics (run CrewTokenTracker.init exampleOps)).total_tokens = 20 :=
  ⟨per_task_key_aggregation exampleOps "task_1_agent_A" exampleTaskA
      (by decide) (by decide),
    by decide, by decide, by decide⟩

/-- Claim C3. After every sequence of record and reset operations, the
workflow totals each equal the sum of the corresponding field over
`per_agent`, over `per_task`, and over `all_calls`; `all_calls` is
exactly the list of calls recorded since the last reset; and
`total_tokens` equals the sum of prompt plus completion tokens over those
calls. -/
theorem cross_view_totals (ops : List Op) :
    let m := liveMetrics (run CrewTokenTracker.init ops)
    m.total_tokens = dictSum (fun x => x.total_tokens) m.per_agent ∧
    m.total_tokens = dictSum (fun x => x.total_tokens) m.per_task ∧
    m.total_tokens = sumBy (fun c => c.total_tokens) m.all_calls ∧
    m.prompt_tokens = dictSum (fun x => x.prompt_tokens) m.per_agent ∧
    m.prompt_tokens = dictSum (fun x => x.prompt_tokens) m.per_task ∧
    m.prompt_tokens = sumBy (fun c => c.prompt_tokens) m.all_calls ∧
    m.completion_tokens = dictSum (fun x => x.completion_tokens) m.per_agent ∧
    m.completion_tokens = dictSum (fun x => x.completion_tokens) m.per_task ∧
    m.completion_tokens = sumBy (fun c => c.completion_tokens) m.all_calls ∧
    m.all_calls = callsSince [] ops ∧
    m.total_tokens =
      sumBy (fun c => c.prompt_tokens + c.completion_tokens) m.all_calls := by
  intro m
  have h := metricsInv_run ops
  refine ⟨h.agent_sum_total.symm, h.task_sum_total.symm, h.total_eq,
    h.agent_sum_prompt.symm, h.task_sum_prompt.symm, h.prompt_eq,
    h.agent_sum_completion.symm, h.task_sum_completion.symm, h.completion_eq,
    all_calls_eq_callsSince ops, ?_⟩
  rw [h.total_eq]
  exact sumBy_congr _ _ _ h.consistent

/-- Claim C4. For every agent name present in `per_agent` after a
reset-free sequence of `record_llm_call` invocations, the aggregate's
totals equal the sums of the respective fields over only the recorded
calls naming that agent, and its call count equals their number. -/
theorem per_agent_aggregation (ops : List Op) (k : String)
    (a : AgentTokenMetrics) (hres : Op.reset ∉ ops)
    (hk : dictLookup k
      (liveMetrics (run CrewTokenTracker.init ops)).per_agent = some a) :
    a.total_tokens = sumBy (fun c => c.total_tokens)
      ((recordsOf ops).filter (fun c => c.agent_name == k)) ∧
    a.prompt_tokens = sumBy (fun c => c.prompt_tokens)
      ((recordsOf ops).filter (fun c => c.agent_name == k)) ∧
    a.completion_tokens = sumBy (fun c => c.completion_tokens)
      ((recordsOf ops).filter (fun c => c.agent_name == k)) ∧
    a.call_count = ((recordsOf ops).filter (fun c => c.agent_name == k)).length := by
  have h := metricsInv_run ops
  obtain ⟨hn, hcalls, ht, hp, hcp, hcnt⟩ := h.agent_entry k a hk
  rw [all_calls_run_no_reset ops hres] at hcalls
  rw [hcalls] at ht hp hcp hcnt
  exact ⟨ht, hp, hcp, hcnt⟩

/-- Claim C4, witness: after one call by agent_A (10 prompt, 5
completion), the agent_A aggregate matches the sums over the calls naming
agent_A. -/
theorem per_agent_aggregation_witness :
    singleAgent.total_tokens = sumBy (fun c => c.total_tokens)
      ((recordsOf singleOps).filter (fun c => c.agent_name == "agent_A")) ∧
    singleAgent.prompt_tokens = sumBy (fun c => c.prompt_tokens)
      ((recordsOf singleOps).filter (fun c => c.agent_name == "agent_A")) ∧
    singleAgent.completion_tokens = sumBy (fun c => c.completion_tokens)
      ((recordsOf singleOps).filter (fun c => c.agent_name == "agent_A")) ∧
    singleAgent.call_count =
      ((recordsOf singleOps).filter (fun c => c.agent_name == "agent_A")).length :=
  per_agent_aggregation singleOps "agent_A" singleAgent (by decide) (by decide)

/-- Claim C5. After any prior sequence of operations, `reset` followed
immediately by `get_metrics` yields an aggregate with zero totals, empty
per-agent and per-task mappings, and an empty call list. -/
theorem reset_then_snapshot_empty (ops : List Op) :
    derefMetrics (step (run CrewTokenTracker.init ops) Op.reset)
      (get_metrics (step (run CrewTokenTracker.init ops) Op.reset)) =
      { total_tokens := 0, prompt_tokens := 0, completion_tokens := 0,
        per_agent := [], per_task := [], all_calls := [] } :=
  liveMetrics_step_reset _

/-- Claim C6. Every call record retained anywhere in the aggregate — in
`all_calls`, in any per-agent calls list, or in any per-task calls list —
satisfies `total_tokens = prompt_tokens + completion_tokens`. -/
theorem retained_record_consistency (ops : List Op) (c : LLMCallMetrics)
    (hmem : c ∈ (liveMetrics (run CrewTokenTracker.init ops)).all_calls ∨
      (∃ p ∈ (liveMetrics (run CrewTokenTracker.init ops)).per_agent,
        c ∈ p.2.calls) ∨
      (∃ p ∈ (liveMetrics (run CrewTokenTracker.init ops)).per_task,
        c ∈ p.2.calls)) :
    c.total_tokens = c.prompt_tokens + c.completion_tokens := by
  have h := metricsInv_run ops
  rcases hmem with h1 | ⟨p, hp, h1⟩ | ⟨p, hp, h1⟩
  · exact h.consistent c h1
  · exact h.agent_nested p hp c h1
  · exact h.task_nested p hp c h1

/-- Claim C6, witness: the record of the single agent_A call, retained in
`all_calls`, is internally consistent (15 = 10 + 5). -/
theorem retained_record_consistency_witness :
    (mkCall 0 "agent_A" "task_1" "gpt" 10 5 "generation").total_tokens =
      (mkCall 0 "agent_A" "task_1" "gpt" 10 5 "generation").prompt_tokens +
      (mkCall 0 "agent_A" "task_1" "gpt" 10 5 "generation").completion_tokens :=
  retained_record_consistency singleOps
    (mkCall 0 "agent_A" "task_1" "gpt" 10 5 "generation") (Or.inl (by decide))

/-- Claim C7. `record_llm_call` is a total function — for every state and
every input, including empty agent or task names and negative token
counts, it succeeds and incorporates the inputs by ordinary arithmetic:
the workflow totals grow by exactly `prompt_tokens + completion_tokens`,
`prompt_tokens`, and `completion_tokens`, and the new record is appended
unvalidated. -/
theorem record_call_never_fails (m : WorkflowTokenMetrics) (now : Nat)
    (agent_name task_name model : String)
    (prompt_tokens completion_tokens : Int) (call_type : String) :
    (record_llm_call m now agent_name task_name model
        prompt_tokens completion_tokens call_type).total_tokens =
      m.total_tokens + (prompt_tokens + completion_tokens) ∧
    (record_llm_call m now agent_name task_name model
        prompt_tokens completion_tokens call_type).prompt_tokens =
      m.prompt_tokens + prompt_tokens ∧
    (record_llm_call m now agent_name task_name model
        prompt_tokens completion_tokens call_type).completion_tokens =
      m.completion_tokens + completion_tokens ∧
    (record_llm_call m now agent_name task_name model
        prompt_tokens completion_tokens call_type).all_calls =
      m.all_calls ++ [mkCall now agent_name task_name model
        prompt_tokens completion_tokens call_type] :=
  ⟨rfl, rfl, rfl, rfl⟩

/-- Claim C9. The composite key is not injective: the distinct pairs
(task "a", agent "b_c") and (task "a_b", agent "c") share the key
"a_b_c", so their recordings are merged into a single per-task entry
whose tokens and call count are the sum over both pairs and whose stored
`task_name`/`agent_name` are those of the first arrival. -/
theorem composite_key_collision :
    taskKey "a" "b_c" = taskKey "a_b" "c" ∧
    (liveMetrics (run CrewTokenTracker.init collideOps)).per_task =
      [(("a_b_c" : String),
        { task_name := "a", agent_name := "b_c", total_tokens := 3,
          prompt_tokens := 3, completion_tokens := 0, call_count := 2,
          calls := [mkCall 0 "b_c" "a" "gpt" 1 0 "generation",
                    mkCall 1 "c" "a_b" "gpt" 2 0 "generation"] })] := by
  decide

/-- Claim C10. Once `reset` has executed, the aggregate object that
`get_metrics` returned before the reset is never mutated again: after the
reset rebinds the tracker to a fresh aggregate, any further sequence of
operations leaves the old reference dereferencing to exactly the value it
had when the reset happened. -/
theorem post_reset_snapshot_frozen (ops1 ops2 : List Op) :
    derefMetrics (run (step (run CrewTokenTracker.init ops1) Op.reset) ops2)
      (get_metrics (run CrewTokenTracker.init ops1)) =
    derefMetrics (run CrewTokenTracker.init ops1)
      (get_metrics (run CrewTokenTracker.init ops1)) := by
  have hwf : TrackerWF (run CrewTokenTracker.init ops1) :=
    trackerWF_run _ _ trackerWF_init
  have hwf2 : (run CrewTokenTracker.init ops1).cur <
      (run CrewTokenTracker.init ops1).store.length := hwf
  have hr : get_metrics (run CrewTokenTracker.init ops1) <
      (step (run CrewTokenTracker.init ops1) Op.reset).store.length := by
    simp only [step, List.length_append, List.length_cons, List.length_nil,
      get_metrics]
    omega
  have hne : get_metrics (run CrewTokenTracker.init ops1) ≠
      (step (run CrewTokenTracker.init ops1) Op.reset).cur := by
    simp only [step, get_metrics]
    omega
  rw [derefMetrics_run_frozen ops2 _ _ (trackerWF_step _ _ hwf) hr hne]
  simp only [derefMetrics, step, get_metrics]
  exact getD_append_left _ _ _ _ hwf2
